import Mathlib

/-!
Verification of the request-orchestration and streaming pipeline of
`urlbar-llm.uc.js` (urlbar-ai).  Pure functions of the script are embedded
as Lean functions; stateful or asynchronous code (the stream read loop, the
retry loop, the session store, the per-turn orchestration) is embedded as
explicit state passing over small state records, with the environment
(server responses, per-attempt fetch outcomes, timer races) supplied as
explicit parameters.  JavaScript strings are modelled as `List Char`;
JavaScript numbers that matter here are all naturals.
-/

namespace UrlbarLLM

/-- JS `String.prototype.trim()`: strip whitespace from both ends
(modelled with `Char.isWhitespace`, which covers the whitespace that
occurs in the wire formats at hand). -/
def jsTrim (s : List Char) : List Char :=
  ((s.dropWhile Char.isWhitespace).reverse.dropWhile Char.isWhitespace).reverse

/-- JS `String.prototype.toUpperCase()` on the ASCII range. -/
def jsUpper (s : List Char) : List Char := s.map Char.toUpper

/-- JS `String.prototype.includes(needle)`. -/
def jsIncludes (hay needle : List Char) : Bool := decide (needle <:+: hay)

/-!
`buffer.split("\n")` followed by `buffer = lines.pop()` (lines 4169-4170 of
the script) is modelled by `splitLines`, which returns the complete
(newline-terminated) lines together with the trailing partial line.
`"a\nb".split("\n") = ["a","b"]` with `pop` leaving lines `["a"]` and
buffer `"b"` corresponds to `splitLines "a\nb" = (["a"], "b")`.
-/
def splitLines : List Char → List (List Char) × List Char
  | [] => ([], [])
  | c :: rest =>
    let r := splitLines rest
    if c = '\n' then ([] :: r.1, r.2)
    else
      match r with
      | ([], p) => ([], c :: p)
      | (h :: t, p) => ((c :: h) :: t, p)

/-!
Stream decoder (`streamResponse`, lines 4094-4215).  The per-line JSON
work (`JSON.parse` composed with `extractDelta`) is kept abstract in a
`LineSem` parameter: `parseDelta` models the SSE branch (line 4185:
`JSON.parse` of the text after `"data: "`, then `.choices[0].delta.content
|| null`; `none` is a parse error, silently skipped), and `parseNd` models
the Ollama NDJSON branch (line 4196: `JSON.parse` of the trimmed line,
then `(message.content || null, !!done)`).  Everything else — the trim,
the `"data: "` and `"[DONE]"` dispatch, the buffering, the debounce
bookkeeping, the early returns — is translated concretely.
-/
structure LineSem where
  ollama : Bool
  parseDelta : List Char → Option (Option (List Char))
  parseNd : List Char → Option (Option (List Char) × Bool)

/-- Effect of one complete line: an optional delta emission and whether
the stream stops right after this line. -/
structure LAct where
  emit : Option (List Char)
  stop : Bool

/-- Dispatch on one complete line (lines 4172-4209 of `streamResponse`). -/
def lineAction (A : LineSem) (line : List Char) : LAct :=
  let trimmed := jsTrim line
  if trimmed = [] then ⟨none, false⟩
  else if ("data: ".toList).isPrefixOf trimmed then
    let data := trimmed.drop 6
    if data = "[DONE]".toList then ⟨none, true⟩
    else
      match A.parseDelta data with
      | none => ⟨none, false⟩
      | some t => ⟨t, false⟩
  else if A.ollama then
    match A.parseNd trimmed with
    | none => ⟨none, false⟩
    | some (t, d) => ⟨t, d⟩
  else ⟨none, false⟩

/-- Decoder state.  `buffer` is the incomplete-line buffer; `out` is the
ordered list of emitted deltas (so `out.join` is `accumulatedText`);
`pend` is `renderPending`/`renderTimeoutId` — whether a debounced render
timer is currently scheduled; `renders` records the arguments of the
non-debounced (final) `renderMarkdownToElement` calls; `term` is set once
the stream has returned. -/
structure DecSt where
  buffer : List Char
  out : List (List Char)
  pend : Bool
  renders : List (List Char)
  term : Bool
deriving DecidableEq

def initSt : DecSt := ⟨[], [], false, [], false⟩

/-- Process one complete line of the read loop: emit the delta (JS
`if (text)` skips empty text) and schedule a debounced render; on a
terminal line ([DONE] or `done:true`) cancel the pending render, perform
the one final non-debounced render of the accumulated text, and stop. -/
def stepLine (A : LineSem) (st : DecSt) (line : List Char) : DecSt :=
  if st.term then st
  else
    let a := lineAction A line
    let st1 :=
      match a.emit with
      | some t => if t = [] then st else { st with out := st.out ++ [t], pend := true }
      | none => st
    if a.stop then
      { st1 with pend := false, renders := st1.renders ++ [st1.out.flatten], term := true }
    else st1

def stepLines (A : LineSem) (st : DecSt) (lines : List (List Char)) : DecSt :=
  lines.foldl (stepLine A) st

/-- One iteration of the read loop on a decoded chunk (lines 4164-4211):
append to the buffer, split on newlines, keep the trailing partial line,
process the complete lines (stopping at a terminal line). -/
def feedChunk (A : LineSem) (st : DecSt) (chunk : List Char) : DecSt :=
  if st.term then st
  else
    let sp := splitLines (st.buffer ++ chunk)
    stepLines A { st with buffer := sp.2 } sp.1

def feedChunks (A : LineSem) (st : DecSt) (chunks : List (List Char)) : DecSt :=
  chunks.foldl (feedChunk A) st

/-- End of byte stream without a terminal marker (lines 4211-4214): the
loop breaks, the pending debounced render is cancelled and the single
final render of the accumulated text is performed.  The buffer is
discarded. -/
def finishStream (st : DecSt) : DecSt :=
  { st with pend := false, renders := st.renders ++ [st.out.flatten] }

/-- A complete, uncancelled run of `streamResponse` on a chunk sequence:
if a terminal line already returned, the end-of-stream epilogue is never
reached; otherwise it runs. -/
def streamRun (A : LineSem) (chunks : List (List Char)) : DecSt :=
  let st := feedChunks A initSt chunks
  if st.term then st else finishStream st

/-- A run cancelled after reading `chunks`: `reader.read()` rejects with
`AbortError`, which propagates out of `streamResponse` (lines 4164-4215
contain no catch), so neither `cancelPendingRender` nor the final render
runs; `sendToLLM`'s catch (lines 4060-4086) has no access to the
function-local timer either.  The decoder state at the moment the
exception propagates is exactly the state after the chunks read so far. -/
def abortRun (A : LineSem) (chunks : List (List Char)) : DecSt :=
  feedChunks A initSt chunks

/-- The observable part of the decoder state: everything except the dead
incomplete-line buffer. -/
def obs (st : DecSt) : List (List Char) × Bool × List (List Char) × Bool :=
  (st.out, st.pend, st.renders, st.term)

/-- The buffer holds no newline character — the invariant the read loop
maintains. -/
def noNl (st : DecSt) : Prop := '\n' ∉ st.buffer

/-!
`fetchWithRetry` (lines 1255-1295) with the constants of `LIMITS`
(lines 1126-1147): `RETRY_MAX_ATTEMPTS = 3`, `RETRY_BASE_DELAY_MS = 1000`,
`RETRY_MAX_DELAY_MS = 10000`, and `RETRYABLE_STATUSES` (line 1248).
The network is an explicit environment: `env i` is what `fetch` does on
attempt `i`, and `sleepAborted i` is whether the backoff sleep after
attempt `i` is interrupted by the abort signal (`sleepWithAbort`,
lines 1297-1312, rejects with `AbortError` in that case).  The catch of
the loop (lines 1277-1291) is modelled in full: the `throw` of the
synthesized `Error("API error: <status> <statusText> — <body[:200]>")`
on line 1276 happens inside the `try`, so it lands in that catch, whose
retryability test `err.name === "TypeError" || /network|fetch|failed|
timeout|connection|refused/i.test(err.message)` can make even a
non-retryable HTTP status retried when its status text or body matches.
-/
def RETRY_MAX_ATTEMPTS : Nat := 3

def RETRY_BASE_DELAY_MS : Nat := 1000

def RETRY_MAX_DELAY_MS : Nat := 10000

def RETRYABLE_STATUSES : List Nat := [429, 500, 502, 503, 504]

/-- JS `String.prototype.toLowerCase()` on the ASCII range. -/
def jsLower (s : List Char) : List Char := s.map Char.toLower

/-- The alternatives of the connection-error retry regex
`/network|fetch|failed|timeout|connection|refused/i` (line 1282). -/
def RETRY_REGEX_WORDS : List (List Char) :=
  ["network".toList, "fetch".toList, "failed".toList, "timeout".toList,
   "connection".toList, "refused".toList]

/-- The case-insensitive regex test of line 1282 on an error message. -/
def retryMessageTest (msg : List Char) : Bool :=
  RETRY_REGEX_WORDS.any (fun w => jsIncludes (jsLower msg) w)

/-- The full retryability test of the catch (lines 1280-1282):
`err.name === "TypeError" || (err.message && regex.test(err.message))`. -/
def catchRetryable (name msg : List Char) : Bool :=
  (name == "TypeError".toList) || (!(msg == ([] : List Char)) && retryMessageTest msg)

/-- The message of the `Error` synthesized on line 1275:
`API error: <status> <statusText><body ? " — " + body[:200] : "">`. -/
def apiErrorMessage (status : Nat) (statusText body : List Char) : List Char :=
  "API error: ".toList ++ (toString status).toList ++ " ".toList ++ statusText ++
    (if body = [] then [] else " — ".toList ++ body.take 200)

/-- Outcome of one `fetch` call: a response (status, status text and
body text), a connection-level rejection carrying the error's `name` and
`message` (which the catch tests for retryability), or an `AbortError`. -/
inductive FetchOut where
  | resp (status : Nat) (statusText : List Char) (body : List Char)
  | connErr (name : List Char) (msg : List Char)
  | abortErr
deriving DecidableEq

inductive RetryErr where
  | aborted
  | apiError (status : Nat)
  | connFailed
  | exhausted
deriving DecidableEq

/-- Result of a `fetchWithRetry` run: how many attempts were made, the
backoff delays that were slept between attempts, and the outcome. -/
structure RetryResult where
  attempts : Nat
  delays : List Nat
  outcome : Except RetryErr Nat

/-- JS `response.ok`: status in the range 200-299. -/
def respOk (status : Nat) : Bool := 200 ≤ status && status < 300

def backoffDelay (attempt : Nat) : Nat :=
  min (RETRY_BASE_DELAY_MS * 2 ^ attempt) RETRY_MAX_DELAY_MS

/-- The retry loop of `fetchWithRetry`.  `fuel` is `maxAttempts - attempt`
(the loop bound).  A non-ok response with a status outside
`RETRYABLE_STATUSES` (or on the last attempt) throws the synthesized
`API error` `Error` (name `"Error"`), which is caught by the same
iteration's catch and re-tested with `catchRetryable` — so it is retried
after a backoff sleep whenever its message matches the regex and attempts
remain, exactly like a connection-level failure. -/
def retryLoop (env : Nat → FetchOut) (sleepAborted : Nat → Bool) :
    Nat → Nat → List Nat → RetryResult
  | 0, attempt, delays => ⟨attempt, delays, .error .exhausted⟩
  | fuel + 1, attempt, delays =>
    match env attempt with
    | .abortErr => ⟨attempt + 1, delays, .error .aborted⟩
    | .resp status statusText body =>
      if respOk status then ⟨attempt + 1, delays, .ok status⟩
      else if RETRYABLE_STATUSES.contains status && attempt + 1 < RETRY_MAX_ATTEMPTS then
        if sleepAborted attempt then
          ⟨attempt + 1, delays ++ [backoffDelay attempt], .error .aborted⟩
        else
          retryLoop env sleepAborted fuel (attempt + 1) (delays ++ [backoffDelay attempt])
      else if catchRetryable ("Error".toList) (apiErrorMessage status statusText body) &&
          attempt + 1 < RETRY_MAX_ATTEMPTS then
        if sleepAborted attempt then
          ⟨attempt + 1, delays ++ [backoffDelay attempt], .error .aborted⟩
        else
          retryLoop env sleepAborted fuel (attempt + 1) (delays ++ [backoffDelay attempt])
      else ⟨attempt + 1, delays, .error (.apiError status)⟩
    | .connErr name msg =>
      if catchRetryable name msg && attempt + 1 < RETRY_MAX_ATTEMPTS then
        if sleepAborted attempt then
          ⟨attempt + 1, delays ++ [backoffDelay attempt], .error .aborted⟩
        else
          retryLoop env sleepAborted fuel (attempt + 1) (delays ++ [backoffDelay attempt])
      else ⟨attempt + 1, delays, .error .connFailed⟩

def fetchWithRetry (env : Nat → FetchOut) (sleepAborted : Nat → Bool) : RetryResult :=
  retryLoop env sleepAborted RETRY_MAX_ATTEMPTS 0 []

/-!
Session store (`putSession`, lines 1365-1402; `pruneSessionsForProvider`,
lines 1404-1420; `buildSessionFromConversation`, lines 1504-1562).  The
IndexedDB object store keyed on `id` is modelled as a list of records in
insertion order with unique ids; `store.put` replaces the record with the
same id or appends.  JS falsy tests on timestamps (`||`) are modelled on
`Nat` with `0` as the falsy value.
-/
def HISTORY_MAX_SESSIONS_PER_PROVIDER : Nat := 20

def HISTORY_MAX_MESSAGES_PER_SESSION : Nat := 50

def HISTORY_MAX_TITLE_LENGTH : Nat := 120

def HISTORY_MAX_CONTENT_LENGTH : Nat := 500000

structure SourceRef where
  title : String
  url : String
  source : String
  index : Nat
deriving DecidableEq

structure MsgRec where
  role : String
  content : String
  sources : List SourceRef
deriving DecidableEq

structure SessionRec where
  id : String
  providerKey : String
  createdAt : Nat
  updatedAt : Nat
  title : String
  messages : List MsgRec
deriving DecidableEq

/-- JS `a || b` on our `Nat`-modelled timestamps (`0`, like `undefined`,
is falsy). -/
def orFalsy (a b : Nat) : Nat := if a = 0 then b else a

/-- `store.get(id)` of the IndexedDB store. -/
def storeGet (db : List SessionRec) (i : String) : Option SessionRec :=
  db.find? (fun s => s.id == i)

/-- `store.put(rec)`: replace the record with the same id, else append. -/
def storePut (db : List SessionRec) (r : SessionRec) : List SessionRec :=
  if db.any (fun s => s.id == r.id) then
    db.map (fun s => if s.id == r.id then r else s)
  else db ++ [r]

/-- Insertion into a list kept sorted by descending `updatedAt`; models
the comparator `(a, b) => (b.updatedAt || 0) - (a.updatedAt || 0)` of
`pruneSessionsForProvider`. -/
def insertDesc (x : SessionRec) : List SessionRec → List SessionRec
  | [] => [x]
  | y :: ys => if y.updatedAt ≤ x.updatedAt then x :: y :: ys else y :: insertDesc x ys

def sortByUpdatedDesc (l : List SessionRec) : List SessionRec :=
  l.foldr insertDesc []

/-- `pruneSessionsForProvider` (lines 1404-1420): sort that provider's
sessions newest-first by `updatedAt` and delete everything beyond the
per-provider cap. -/
def pruneSessionsForProvider (db : List SessionRec) (pk : String) : List SessionRec :=
  let sessions := db.filter (fun s => s.providerKey == pk)
  let sorted := sortByUpdatedDesc sessions
  let toRemove := (sorted.drop HISTORY_MAX_SESSIONS_PER_PROVIDER).map (fun s => s.id)
  db.filter (fun s => !(toRemove.contains s.id))

/-- `putSession` (lines 1365-1402), given the current store contents and
`Date.now()`: read the existing record, merge (`createdAt` is kept from
the existing record when present; `updatedAt`, `title` and `messages`
come from the incoming session), write, then prune the provider. -/
def putSession (db : List SessionRec) (session : SessionRec) (now : Nat) : List SessionRec :=
  if session.providerKey = "" then db
  else
    let existing := storeGet db session.id
    let toSave : SessionRec :=
      { id := session.id
        providerKey := session.providerKey
        createdAt := orFalsy (match existing with
            | some e => e.createdAt
            | none => 0)
          (orFalsy session.createdAt (orFalsy session.updatedAt now))
        updatedAt := orFalsy session.updatedAt now
        title := session.title
        messages := session.messages }
    pruneSessionsForProvider (storePut db toSave) session.providerKey

/-- Title computation of `buildSessionFromConversation` (lines 1516-1530):
the trimmed content of the first non-empty user message, capped at
`HISTORY_MAX_TITLE_LENGTH` with an ellipsis; `none` when no such message
exists (in which case no session is built at all). -/
def sessionTitle (history : List MsgRec) : Option String :=
  match history.find? (fun m => m.role == "user" && !(m.content.trim == "")) with
  | none => none
  | some m =>
    let t := m.content.trim
    some (if t.length > HISTORY_MAX_TITLE_LENGTH
      then (t.take HISTORY_MAX_TITLE_LENGTH) ++ "..." else t)

/-!
Search cache (`searchCache`/`cacheSet`, lines 2592-2602, and the TTL
check of `searchWeb`, lines 2612-2618).  A JS `Map` is a list of
key-value pairs in insertion order with unique keys; `keys().next().value`
is the head key; `get` does not reorder anything.
-/
def MAX_CACHE_SIZE : Nat := 50

def CACHE_TTL : Nat := 30 * 60 * 1000

/-- `Map.delete(k)` on the insertion-ordered pair list. -/
def mapDelete (m : List (String × α)) (k : String) : List (String × α) :=
  m.filter (fun p => !(p.1 == k))

/-- `Map.set(k, v)`: overwrite in place, else append (insertion order). -/
def mapSet (m : List (String × α)) (k : String) (v : α) : List (String × α) :=
  if m.any (fun p => p.1 == k) then
    m.map (fun p => if p.1 == k then (k, v) else p)
  else m ++ [(k, v)]

/-- `cacheSet` (lines 2595-2602): evict the first key in iteration order
(the oldest-inserted entry) when at capacity, then insert. -/
def cacheSet (m : List (String × α)) (k : String) (v : α) : List (String × α) :=
  let m1 :=
    if MAX_CACHE_SIZE ≤ m.length then
      match m with
      | [] => m
      | p :: _ => mapDelete m p.1
    else m
  mapSet m1 k v

/-- The `searchWeb` cache read (lines 2613-2618): `Map.get` plus the
freshness test `Date.now() - cached.timestamp < CACHE_TTL`.  It does not
mutate the cache. -/
def cacheLookup (m : List (String × (α × Nat))) (k : String) (now : Nat) : Option α :=
  match m.find? (fun p => p.1 == k) with
  | none => none
  | some p => if now - p.2.2 < CACHE_TTL then some p.2.1 else none

/-!
Search-need classifier (`queryNeedsWebSearchLLM`, lines 1921-2003).  The
single non-streaming completion call is an explicit environment value:
`.ok body` is the extracted message content (`json...content || ""`),
`.error` any thrown failure (network error, abort, missing provider —
all caught by the `catch` at line 1997).
-/
structure ClassifierResult where
  needsSearch : Bool
  madeNetworkCall : Bool
deriving DecidableEq

def queryNeedsWebSearchLLM (isFollowUp : Bool) (call : Except Unit (List Char)) :
    ClassifierResult :=
  if isFollowUp then ⟨false, false⟩
  else
    match call with
    | .error _ => ⟨false, true⟩
    | .ok body => ⟨jsIncludes (jsUpper (jsTrim body)) "SEARCH".toList, true⟩

/-!
Content fetch (`fetchSearchResultsContent`, lines 3192-3246).  The
per-item fetch (`fetchPageContentOllama` then `fetchPageContent`, both of
which resolve to a string or to null/rejection) is an environment
function; `overallTimedOut` is whether the `Promise.race` against the
overall deadline was won by the timeout.
-/
structure SearchResult where
  title : String
  url : String
  snippet : String
  source : String
  content : String
  index : Nat
deriving DecidableEq

/-- Outcome of one per-result fetch promise as seen by
`Promise.allSettled`: fulfilled with the fetched content (`""` models a
null/empty extraction, which falls back to the snippet via
`content || result.snippet`), or rejected. -/
inductive ItemOut where
  | fetched (c : String)
  | failed
deriving DecidableEq

/-- The per-item mapper (lines 3199-3213 on success, line 3237 on
rejection), applied positionally with 1-based citation indices. -/
def fetchLoop (item : Nat → ItemOut) : Nat → List SearchResult → List SearchResult
  | _, [] => []
  | i, r :: rs =>
    (match item i with
      | .fetched c =>
        { r with content := if c = "" then r.snippet else c, index := i + 1 }
      | .failed => { r with content := r.snippet, index := i + 1 }) ::
      fetchLoop item (i + 1) rs

/-- The timeout path (line 3229) and the catch path (line 3244): every
taken result falls back to its own snippet. -/
def snippetLoop : Nat → List SearchResult → List SearchResult
  | _, [] => []
  | i, r :: rs => { r with content := r.snippet, index := i + 1 } :: snippetLoop (i + 1) rs

def fetchSearchResultsContent (results : List SearchResult) (maxResults : Nat)
    (item : Nat → ItemOut) (overallTimedOut : Bool) : List SearchResult :=
  if overallTimedOut then snippetLoop 0 (results.take maxResults)
  else fetchLoop item 0 (results.take maxResults)

/-!
Orchestration slice of `sendToLLM` (lines 3914-4087) relevant to turn
cancellation: inside the `try`, the classifier (which catches its own
failures), the search (which catches its own failures and degrades to
null), the content fetch (which cannot fail) and then `streamResponse`
run in sequence; only `streamResponse` can throw.  On a throw — in
particular the `AbortError` of a cancelled turn — control jumps to the
`catch` (lines 4060-4086), skipping the `conversationHistory.push` of the
assistant entry (line 4045) and the `maybeSaveConversationToHistory`
upsert (line 4057).
-/
inductive StreamErr where
  | aborted
  | other
deriving DecidableEq

structure TurnEnv where
  webSearchEnabled : Bool
  supportsWebSearch : Bool
  classifierCall : Except Unit (List Char)
  searchResults : Option (List SearchResult)
  fetchItem : Nat → ItemOut
  fetchTimedOut : Bool
  streamOutcome : Except StreamErr String

structure TurnResult where
  history : List MsgRec
  upsertInvoked : Bool
deriving DecidableEq

def MAX_FETCH_RESULTS : Nat := 3

def sendToLLM (history : List MsgRec) (env : TurnEnv) : TurnResult :=
  let isFollowUp := 1 < history.length
  let needsSearch :=
    if env.webSearchEnabled && env.supportsWebSearch then
      (queryNeedsWebSearchLLM isFollowUp env.classifierCall).needsSearch
    else false
  let sources : List SearchResult :=
    if needsSearch then
      match env.searchResults with
      | some rs =>
        if 0 < rs.length then
          fetchSearchResultsContent rs MAX_FETCH_RESULTS env.fetchItem env.fetchTimedOut
        else []
      | none => []
    else []
  match env.streamOutcome with
  | .error _ => ⟨history, false⟩
  | .ok text =>
    let entry : MsgRec :=
      { role := "assistant", content := text
        sources := sources.map (fun s => ⟨s.title, s.url, s.source, s.index⟩) }
    ⟨history ++ [entry], true⟩

/-- A concrete SSE-style line semantics used to instantiate the decoder
theorems: non-Ollama, and the only JSON payload it understands is `x1`,
carrying the delta text `Hel`. -/
def sseTest : LineSem :=
  ⟨false, fun d => if d = "x1".toList then some (some "Hel".toList) else none,
    fun _ => none⟩

/-- A concrete NDJSON-style line semantics: Ollama mode, where the line
`done1` parses to content `Hi` with `done:true` and the line `mid1`
parses to content `Yo` with `done:false`. -/
def ndTest : LineSem :=
  ⟨true, fun _ => none,
    fun s =>
      if s = "done1".toList then some (some "Hi".toList, true)
      else if s = "mid1".toList then some (some "Yo".toList, false)
      else none⟩

/-- The environment of a server answering 503, 503, then 200. -/
def env503 : Nat → FetchOut :=
  fun i => if i < 2 then .resp 503 ("Service Unavailable".toList) []
    else .resp 200 ("OK".toList) []

/-- The environment of a server answering 404 with status text
"Not Found" and a body whose text matches the retry regex. -/
def env404f : Nat → FetchOut :=
  fun _ => .resp 404 ("Not Found".toList) ("request failed".toList)

/-- The environment of a server answering 404 with status text
"Not Found" and an empty body. -/
def env404plain : Nat → FetchOut :=
  fun _ => .resp 404 ("Not Found".toList) []

/-- No backoff sleep is interrupted. -/
def noSleepAbort : Nat → Bool := fun _ => false

/-- A concrete scenario-C input: five search results, of which content
will be fetched for the first three. -/
def exampleResults : List SearchResult :=
  [⟨"t1", "u1", "s1", "w1", "", 0⟩, ⟨"t2", "u2", "s2", "w2", "", 0⟩,
   ⟨"t3", "u3", "s3", "w3", "", 0⟩, ⟨"t4", "u4", "s4", "w4", "", 0⟩,
   ⟨"t5", "u5", "s5", "w5", "", 0⟩]

/-- Fetch outcomes for scenario C: only the second fetch succeeds. -/
def exampleItems : Nat → ItemOut :=
  fun i => if i = 1 then .fetched "extracted" else .failed

/-- Fifty distinct cache entries, keyed by the decimal numerals
0 through 49. -/
def fullCache : List (String × Nat) := (List.range 50).map (fun n => (toString n, n))

/-- Fifty-one distinct insertions. -/
def fiftyOneInserts : List (String × Nat) :=
  (List.range 51).map (fun n => (toString n, n))

theorem splitLines_nil : splitLines [] = ([], []) := rfl

theorem splitLines_cons_nl (rest : List Char) :
    splitLines ('\n' :: rest) = ([] :: (splitLines rest).1, (splitLines rest).2) := by
  simp [splitLines]

theorem splitLines_cons_other (c : Char) (rest : List Char) (hc : c ≠ '\n') :
    splitLines (c :: rest) =
      match splitLines rest with
      | ([], p) => ([], c :: p)
      | (h :: t, p) => ((c :: h) :: t, p) := by
  simp [splitLines, hc]

/-- Feeding `a ++ b` through the line splitter is the same as feeding `a`,
keeping its partial line, and feeding that partial line followed by `b`. -/
theorem splitLines_append (a b : List Char) :
    splitLines (a ++ b) =
      ((splitLines a).1 ++ (splitLines ((splitLines a).2 ++ b)).1,
       (splitLines ((splitLines a).2 ++ b)).2) := by
  induction a with
  | nil => simp [splitLines]
  | cons c rest ih =>
    rcases hr : splitLines rest with ⟨l1, p1⟩
    rcases hs : splitLines (p1 ++ b) with ⟨l2, p2⟩
    rw [hr] at ih
    simp only [hs] at ih
    by_cases hc : c = '\n'
    · subst hc
      rw [List.cons_append, splitLines_cons_nl, ih, splitLines_cons_nl, hr]
      simp [hs]
    · rw [List.cons_append, splitLines_cons_other c (rest ++ b) hc, ih,
        splitLines_cons_other c rest hc, hr]
      cases l1 with
      | nil =>
        simp only [List.nil_append, List.cons_append]
        rw [splitLines_cons_other c (p1 ++ b) hc, hs]
      | cons h t => simp [hs]

/-- The partial line returned by the splitter contains no newline. -/
theorem splitLines_snd_no_nl (s : List Char) : '\n' ∉ (splitLines s).2 := by
  induction s with
  | nil => simp [splitLines]
  | cons c rest ih =>
    by_cases hc : c = '\n'
    · subst hc; rw [splitLines_cons_nl]; exact ih
    · rw [splitLines_cons_other c rest hc]
      rcases hr : splitLines rest with ⟨l1, p1⟩
      rw [hr] at ih
      cases l1 with
      | nil =>
        simp only [List.mem_cons]
        rintro (h | h)
        · exact hc h.symm
        · exact ih h
      | cons h t => exact ih

/-- A newline-free text is all partial line: no complete line comes out. -/
theorem splitLines_no_nl (s : List Char) (h : '\n' ∉ s) : splitLines s = ([], s) := by
  induction s with
  | nil => rfl
  | cons c rest ih =>
    simp only [List.mem_cons, not_or] at h
    rw [splitLines_cons_other c rest (fun hceq => h.1 hceq.symm), ih h.2]

theorem stepLine_buffer (A : LineSem) (st : DecSt) (l : List Char) :
    (stepLine A st l).buffer = st.buffer := by
  unfold stepLine
  by_cases h : st.term
  · simp [h]
  · simp only [h, if_false]
    rcases (lineAction A l).emit with _ | t
    · by_cases hs : (lineAction A l).stop <;> simp [hs]
    · by_cases ht : t = [] <;> by_cases hs : (lineAction A l).stop <;> simp [ht, hs]

theorem stepLines_buffer (A : LineSem) (st : DecSt) (ls : List (List Char)) :
    (stepLines A st ls).buffer = st.buffer := by
  induction ls generalizing st with
  | nil => rfl
  | cons l ls ih => rw [stepLines, List.foldl_cons, ← stepLines, ih, stepLine_buffer]

theorem stepLine_term (A : LineSem) (st : DecSt) (l : List Char) (h : st.term = true) :
    stepLine A st l = st := by
  unfold stepLine; rw [h]; simp

theorem stepLines_term (A : LineSem) (st : DecSt) (ls : List (List Char))
    (h : st.term = true) : stepLines A st ls = st := by
  induction ls with
  | nil => rfl
  | cons l ls ih => rw [stepLines, List.foldl_cons, stepLine_term A st l h, ← stepLines, ih]

/-- `stepLine` reads and writes everything except the buffer, which it
carries through unchanged. -/
theorem stepLine_setBuffer (A : LineSem) (st : DecSt) (x : List Char) (l : List Char) :
    stepLine A { st with buffer := x } l = { stepLine A st l with buffer := x } := by
  unfold stepLine
  by_cases h : st.term
  · simp [h]
  · simp only [h, if_false]
    rw [Bool.not_eq_true] at h
    rcases (lineAction A l).emit with _ | t
    · by_cases hs : (lineAction A l).stop <;> simp [hs, h]
    · by_cases ht : t = [] <;> by_cases hs : (lineAction A l).stop <;> simp [ht, hs, h]

theorem stepLines_setBuffer (A : LineSem) (st : DecSt) (x : List Char)
    (ls : List (List Char)) :
    stepLines A { st with buffer := x } ls = { stepLines A st ls with buffer := x } := by
  induction ls generalizing st with
  | nil => rfl
  | cons l ls ih =>
    simp only [stepLines, List.foldl_cons] at *
    rw [stepLine_setBuffer]
    exact ih (stepLine A st l)

theorem stepLines_append (A : LineSem) (st : DecSt) (l1 l2 : List (List Char)) :
    stepLines A st (l1 ++ l2) = stepLines A (stepLines A st l1) l2 :=
  List.foldl_append _ _ _ _

theorem obs_setBuffer (st : DecSt) (x : List Char) :
    obs { st with buffer := x } = obs st := rfl

/-- Unfolding of `feedChunk` on a live stream. -/
theorem feedChunk_eq (A : LineSem) (st : DecSt) (c : List Char) (h : st.term = false) :
    feedChunk A st c =
      stepLines A { st with buffer := (splitLines (st.buffer ++ c)).2 }
        (splitLines (st.buffer ++ c)).1 := by
  rw [feedChunk, h]
  simp

theorem feedChunk_term (A : LineSem) (st : DecSt) (c : List Char) (h : st.term = true) :
    feedChunk A st c = st := by
  rw [feedChunk, h]; simp

theorem term_setBuffer (st : DecSt) (x : List Char) :
    ({ st with buffer := x } : DecSt).term = st.term := rfl

theorem feedChunk_setBuffer_live (A : LineSem) (st : DecSt) (x b : List Char)
    (h : st.term = false) :
    feedChunk A { st with buffer := x } b =
      stepLines A { st with buffer := (splitLines (x ++ b)).2 } (splitLines (x ++ b)).1 := by
  rw [feedChunk_eq A { st with buffer := x } b h]

/-- Chunk fusion: feeding two chunks one after the other is observably
the same as feeding their concatenation. -/
theorem feedChunk_fusion (A : LineSem) (st : DecSt) (a b : List Char) :
    obs (feedChunk A (feedChunk A st a) b) = obs (feedChunk A st (a ++ b)) := by
  rcases h : st.term with _ | _
  · rcases hsp : splitLines (st.buffer ++ a) with ⟨l1, p1⟩
    rcases hs3 : splitLines (p1 ++ b) with ⟨l2, p2⟩
    have hs2 : splitLines (st.buffer ++ (a ++ b)) = (l1 ++ l2, p2) := by
      rw [← List.append_assoc, splitLines_append (st.buffer ++ a) b, hsp]
      simp only
      rw [hs3]
    have e1 : feedChunk A st a = { stepLines A st l1 with buffer := p1 } := by
      rw [feedChunk_eq A st a h, hsp]
      exact stepLines_setBuffer A st p1 l1
    have e2 : feedChunk A st (a ++ b) =
        { stepLines A (stepLines A st l1) l2 with buffer := p2 } := by
      rw [feedChunk_eq A st (a ++ b) h, hs2]
      simp only
      rw [stepLines_setBuffer, stepLines_append]
    rw [e1, e2]
    rcases hyt : (stepLines A st l1).term with _ | _
    · rw [feedChunk_setBuffer_live A (stepLines A st l1) p1 b hyt, hs3]
      simp only
      rw [stepLines_setBuffer]
    · rw [feedChunk_term A _ b (by rw [term_setBuffer]; exact hyt),
        stepLines_term A _ l2 hyt]
      rfl
  · rw [feedChunk_term A st a h, feedChunk_term A st b h, feedChunk_term A st (a ++ b) h]

theorem feedChunk_noNl (A : LineSem) (st : DecSt) (c : List Char) (h : noNl st) :
    noNl (feedChunk A st c) := by
  rcases ht : st.term with _ | _
  · rw [feedChunk_eq A st c ht, noNl, stepLines_buffer]
    exact splitLines_snd_no_nl (st.buffer ++ c)
  · rw [feedChunk_term A st c ht]
    exact h

theorem feedChunk_nil (A : LineSem) (st : DecSt) (h : noNl st) :
    feedChunk A st [] = st := by
  rcases ht : st.term with _ | _
  · rw [feedChunk_eq A st [] ht, List.append_nil, splitLines_no_nl st.buffer h]
    rfl
  · exact feedChunk_term A st [] ht

/-- Feeding a chunk list is observably the same as feeding the single
concatenated chunk. -/
theorem feedChunks_obs (A : LineSem) (cs : List (List Char)) :
    ∀ st : DecSt, noNl st →
      obs (feedChunks A st cs) = obs (feedChunk A st cs.flatten) := by
  induction cs with
  | nil =>
    intro st h
    rw [feedChunks, List.foldl_nil, List.flatten_nil, feedChunk_nil A st h]
  | cons c cs ih =>
    intro st h
    rw [feedChunks, List.foldl_cons, ← feedChunks, List.flatten_cons,
      ih (feedChunk A st c) (feedChunk_noNl A st c h), feedChunk_fusion]

theorem feedChunks_noNl (A : LineSem) (cs : List (List Char)) :
    ∀ st : DecSt, noNl st → noNl (feedChunks A st cs) := by
  induction cs with
  | nil => intro st h; exact h
  | cons c cs ih =>
    intro st h
    rw [feedChunks, List.foldl_cons, ← feedChunks]
    exact ih (feedChunk A st c) (feedChunk_noNl A st c h)

theorem initSt_noNl : noNl initSt := by
  intro h
  simp [initSt] at h

theorem feedChunks_append_single (A : LineSem) (cs : List (List Char)) (p : List Char) :
    feedChunks A initSt (cs ++ [p]) = feedChunk A (feedChunks A initSt cs) p := by
  rw [feedChunks, List.foldl_append, List.foldl_cons, List.foldl_nil, ← feedChunks]

/-- C3: for every line semantics (hence for both wire formats and in
particular every well-formed event-stream payload) and for every two ways
of splitting the byte text into chunks, the decoder's read loop produces
the identical ordered sequence of delta emissions, and hence the same
accumulated text — the buffering of the last, possibly-incomplete line of
each chunk makes the outcome depend only on the concatenation. -/
theorem C3_chunk_split_invariance (A : LineSem) (cs1 cs2 : List (List Char))
    (h : cs1.flatten = cs2.flatten) :
    (feedChunks A initSt cs1).out = (feedChunks A initSt cs2).out ∧
    (feedChunks A initSt cs1).out.flatten = (feedChunks A initSt cs2).out.flatten := by
  have h1 := feedChunks_obs A cs1 initSt initSt_noNl
  have h2 := feedChunks_obs A cs2 initSt initSt_noNl
  rw [h] at h1
  rw [← h2] at h1
  have hout : (feedChunks A initSt cs1).out = (feedChunks A initSt cs2).out :=
    congrArg Prod.fst h1
  exact ⟨hout, by rw [hout]⟩

/-- C3 witness: the two-byte-split and the one-chunk presentation of the
same SSE payload yield the same emitted deltas. -/
theorem C3_witness :
    (["data: x1\nda".toList, "ta: x1\n".toList]).flatten =
      (["data: x1\ndata: x1\n".toList]).flatten ∧
    (feedChunks sseTest initSt ["data: x1\nda".toList, "ta: x1\n".toList]).out =
      (feedChunks sseTest initSt ["data: x1\ndata: x1\n".toList]).out :=
  ⟨by decide,
   (C3_chunk_split_invariance sseTest ["data: x1\nda".toList, "ta: x1\n".toList]
     ["data: x1\ndata: x1\n".toList] (by decide)).1⟩

/-- C10: when the byte stream ends while the line buffer still holds an
unterminated final line, that buffered text is discarded: appending any
newline-free tail to a run changes neither the emitted deltas nor the
rendered text, in either wire format ([DONE]-terminated runs are untouched
too, since a terminated stream reads no further chunk). -/
theorem C10_trailing_partial_discarded (A : LineSem) (cs : List (List Char))
    (p : List Char) (hp : '\n' ∉ p) :
    (streamRun A (cs ++ [p])).out = (streamRun A cs).out ∧
    (streamRun A (cs ++ [p])).renders = (streamRun A cs).renders := by
  rw [streamRun, streamRun, feedChunks_append_single]
  have hnl : noNl (feedChunks A initSt cs) := feedChunks_noNl A cs initSt initSt_noNl
  rcases ht : (feedChunks A initSt cs).term with _ | _
  · have hbp : '\n' ∉ (feedChunks A initSt cs).buffer ++ p := by
      intro hm
      rcases List.mem_append.mp hm with hm | hm
      · exact hnl hm
      · exact hp hm
    have he : feedChunk A (feedChunks A initSt cs) p =
        { feedChunks A initSt cs with buffer := (feedChunks A initSt cs).buffer ++ p } := by
      rw [feedChunk_eq A _ p ht, splitLines_no_nl _ hbp]
      rfl
    rw [he, term_setBuffer, ht]
    simp only [Bool.false_eq_true, if_false]
    exact ⟨rfl, rfl⟩
  · rw [feedChunk_term A _ p ht, ht]
    exact ⟨rfl, rfl⟩

/-- C10 witness: dropping an unterminated trailing `data: x2` changes
nothing observable. -/
theorem C10_witness :
    '\n' ∉ "data: x2".toList ∧
    (streamRun sseTest (["data: x1\n".toList] ++ ["data: x2".toList])).out =
      (streamRun sseTest ["data: x1\n".toList]).out :=
  ⟨by decide,
   (C10_trailing_partial_discarded sseTest ["data: x1\n".toList] "data: x2".toList
     (by decide)).1⟩

/-- C6: in the line-delimited-JSON (Ollama) format, a line that parses
with `done:true` first has its content emitted and then terminates the
stream on the spot: the resulting state is independent of any further
complete lines already buffered in the same chunk (`post`), the delta is
appended, the pending debounced render is cancelled, and the single final
render of the accumulated text is performed. -/
theorem C6_ndjson_done_terminates (A : LineSem) (hA : A.ollama = true)
    (st : DecSt) (hterm : st.term = false) (dl t : List Char)
    (post : List (List Char))
    (hne : jsTrim dl ≠ [])
    (hnp : ¬ (("data: ".toList).isPrefixOf (jsTrim dl) = true))
    (hparse : A.parseNd (jsTrim dl) = some (some t, true))
    (ht : t ≠ []) :
    stepLines A st (dl :: post) =
      { st with
          out := st.out ++ [t]
          pend := false
          renders := st.renders ++ [(st.out ++ [t]).flatten]
          term := true } := by
  have hact : lineAction A dl = ⟨some t, true⟩ := by
    rw [lineAction]
    simp only [hne, if_false, Bool.not_eq_true] at *
    simp only [hne, hnp, hA, hparse, if_false, if_true, Bool.false_eq_true]
  have hstep : stepLine A st dl =
      { st with
          out := st.out ++ [t]
          pend := false
          renders := st.renders ++ [(st.out ++ [t]).flatten]
          term := true } := by
    rw [stepLine, hterm]
    simp only [Bool.false_eq_true, if_false, hact, ht]
    simp [ht]
  rw [stepLines, List.foldl_cons, hstep, ← stepLines]
  exact stepLines_term A _ post rfl

/-- C6 witness: a `done:true` line followed by a further buffered
complete line (which would emit `Yo` if processed) stops right after
emitting `Hi`. -/
theorem C6_witness :
    jsTrim ("done1".toList) ≠ [] ∧
    ndTest.parseNd (jsTrim ("done1".toList)) = some (some "Hi".toList, true) ∧
    stepLines ndTest initSt ["done1".toList, "mid1".toList] =
      { initSt with
          out := initSt.out ++ ["Hi".toList]
          pend := false
          renders := initSt.renders ++ [(initSt.out ++ ["Hi".toList]).flatten]
          term := true } :=
  ⟨by decide, by decide,
   C6_ndjson_done_terminates ndTest rfl initSt rfl "done1".toList "Hi".toList
     ["mid1".toList] (by decide) (by decide) (by decide) (by decide)⟩

/-- C2: the claim fails on the abort path.  On the in-stream termination
paths the code does cancel the pending debounce and performs exactly one
final render (second half, a [DONE] run); but when the stream is aborted
after a delta has scheduled the debounce timer, `streamResponse`
propagates the exception without reaching `cancelPendingRender`, so the
timer is still pending and no final render of the accumulated text has
happened (first half) — the timer can still fire after termination. -/
theorem C2_abort_leaves_timer_pending :
    (abortRun sseTest ["data: x1\n".toList]).pend = true ∧
    (abortRun sseTest ["data: x1\n".toList]).renders = [] ∧
    (streamRun sseTest ["data: x1\n".toList, "data: [DONE]\n".toList]).pend = false ∧
    (streamRun sseTest ["data: x1\n".toList, "data: [DONE]\n".toList]).renders =
      ["Hel".toList] ∧
    (streamRun sseTest ["data: x1\n".toList]).pend = false ∧
    (streamRun sseTest ["data: x1\n".toList]).renders = ["Hel".toList] := by
  refine ⟨?_, ?_, ?_, ?_, ?_, ?_⟩ <;> decide

/-- A non-ok response whose status is outside `RETRYABLE_STATUSES` and
whose synthesized `API error` message fails the catch's retryability test
is terminal: one attempt, no backoff recorded at this step. -/
theorem retryLoop_resp_terminal (env : Nat → FetchOut) (sa : Nat → Bool)
    (fuel attempt : Nat) (delays : List Nat) (status : Nat) (st body : List Char)
    (henv : env attempt = .resp status st body)
    (hok : respOk status = false)
    (hr : RETRYABLE_STATUSES.contains status = false)
    (hm : catchRetryable ("Error".toList) (apiErrorMessage status st body) = false) :
    retryLoop env sa (fuel + 1) attempt delays =
      ⟨attempt + 1, delays, .error (.apiError status)⟩ := by
  rw [retryLoop, henv]
  simp only [hok, hr, hm, Bool.false_eq_true, if_false, Bool.false_and]

/-- C4's 404 half is false as stated: lines 1274-1276 throw the
synthesized `Error("API error: 404 Not Found — request failed")` into
the same iteration's catch, whose regex test matches "failed", so this
404 server gets 3 attempts with two backoff sleeps, not 1 attempt. -/
theorem C4_counterexample_404_retried :
    (fetchWithRetry env404f noSleepAbort).attempts = 3 ∧
    ¬ ((fetchWithRetry env404f noSleepAbort).attempts = 1) ∧
    (fetchWithRetry env404f noSleepAbort).delays = [1000, 2000] := by
  refine ⟨?_, ?_, ?_⟩ <;> decide

/-- C4 amended: against a server answering 503, 503, 200,
`fetchWithRetry` makes exactly 3 attempts, sleeps exactly the delays
`min(BASE·2^attempt, CAP)` — concretely 1000 ms and 2000 ms, each within
`[BASE, 4·BASE]` — and returns the 200 response; against a server
answering 404 it makes exactly 1 attempt and fails with that status
provided the synthesized error message (status text and body) does not
match the connection-error retry regex — otherwise the 404 is retried
like a connection failure (the counterexample above). -/
theorem C4_amended_retry_backoff (st body : List Char)
    (hm : catchRetryable ("Error".toList) (apiErrorMessage 404 st body) = false) :
    (fetchWithRetry env503 noSleepAbort).attempts = 3 ∧
    (fetchWithRetry env503 noSleepAbort).outcome = .ok 200 ∧
    (fetchWithRetry env503 noSleepAbort).delays = [backoffDelay 0, backoffDelay 1] ∧
    (fetchWithRetry env503 noSleepAbort).delays = [1000, 2000] ∧
    ((fetchWithRetry env503 noSleepAbort).delays.all
      (fun d => Nat.ble RETRY_BASE_DELAY_MS d && Nat.ble d (4 * RETRY_BASE_DELAY_MS)))
      = true ∧
    (fetchWithRetry (fun _ => .resp 404 st body) noSleepAbort).attempts = 1 ∧
    (fetchWithRetry (fun _ => .resp 404 st body) noSleepAbort).outcome =
      .error (.apiError 404) := by
  have h404 : fetchWithRetry (fun _ => FetchOut.resp 404 st body) noSleepAbort =
      ⟨1, [], .error (.apiError 404)⟩ :=
    retryLoop_resp_terminal (fun _ => FetchOut.resp 404 st body) noSleepAbort
      2 0 [] 404 st body rfl rfl rfl hm
  refine ⟨rfl, rfl, rfl, rfl, rfl, ?_, ?_⟩
  · rw [h404]
  · rw [h404]

/-- C4 amended witness: the plain 404 — status text "Not Found", empty
body — fails the regex test and is terminal on the first attempt. -/
theorem C4_amended_witness :
    catchRetryable ("Error".toList) (apiErrorMessage 404 ("Not Found".toList) []) =
      false ∧
    (fetchWithRetry env404plain noSleepAbort).attempts = 1 ∧
    (fetchWithRetry env404plain noSleepAbort).outcome = .error (.apiError 404) :=
  ⟨by decide,
   (C4_amended_retry_backoff ("Not Found".toList) [] (by decide)).2.2.2.2.2.1,
   (C4_amended_retry_backoff ("Not Found".toList) [] (by decide)).2.2.2.2.2.2⟩

/-- C9: the search-need classifier returns false with no network call
whenever `isFollowUp` holds; otherwise it answers true exactly when the
single classification call succeeds and its trimmed, uppercased response
contains "SEARCH", and any failure of the call degrades to false (with
the call having been made) rather than an error. -/
theorem C9_classifier_decision (f : Bool) (call : Except Unit (List Char)) :
    (f = true → queryNeedsWebSearchLLM f call = ⟨false, false⟩) ∧
    (f = false → ∀ e : Unit, call = .error e →
      queryNeedsWebSearchLLM f call = ⟨false, true⟩) ∧
    (f = false → ∀ body : List Char, call = .ok body →
      ((queryNeedsWebSearchLLM f call).needsSearch = true ↔
        ("SEARCH".toList) <:+: jsUpper (jsTrim body)) ∧
      (queryNeedsWebSearchLLM f call).madeNetworkCall = true) := by
  refine ⟨?_, ?_, ?_⟩
  · intro hf
    subst hf
    rfl
  · intro hf e hc
    subst hf
    subst hc
    rfl
  · intro hf body hc
    subst hf
    subst hc
    exact ⟨decide_eq_true_iff, rfl⟩

/-- C9 witness: on a follow-up no call happens; on a fresh query whose
call returns " Search ok" the answer is true. -/
theorem C9_witness :
    queryNeedsWebSearchLLM true (.ok "whatever".toList) = ⟨false, false⟩ ∧
    queryNeedsWebSearchLLM false (.error ()) = ⟨false, true⟩ ∧
    (queryNeedsWebSearchLLM false (.ok " Search ok".toList)).needsSearch = true :=
  ⟨(C9_classifier_decision true (.ok "whatever".toList)).1 rfl,
   (C9_classifier_decision false (.error ())).2.1 rfl () rfl,
   ((C9_classifier_decision false (.ok " Search ok".toList)).2.2 rfl
     " Search ok".toList rfl).1.mpr (by decide)⟩

/-- C5: when the streamed request of a turn raises (in particular the
`AbortError` of a fired cancellation token: the classifier, search and
content-fetch steps catch their own failures and cannot raise), control
jumps to the catch of `sendToLLM`, so no assistant message — partial or
otherwise — is appended to the conversation history and the session-store
upsert is not invoked: the conversation state is exactly what it was. -/
theorem C5_cancelled_turn_leaves_state (history : List MsgRec) (env : TurnEnv)
    (e : StreamErr) (h : env.streamOutcome = .error e) :
    sendToLLM history env = ⟨history, false⟩ := by
  rw [sendToLLM, h]

/-- C5 witness: a turn aborted mid-stream (after classifier and search
already ran) appends nothing and never reaches the upsert. -/
theorem C5_witness :
    sendToLLM [⟨"user", "hi", []⟩]
      ⟨true, true, .ok "SEARCH".toList, some [⟨"t", "u", "s", "w", "", 0⟩],
        fun _ => .failed, false, .error .aborted⟩ =
      ⟨[⟨"user", "hi", []⟩], false⟩ :=
  C5_cancelled_turn_leaves_state [⟨"user", "hi", []⟩]
    ⟨true, true, .ok "SEARCH".toList, some [⟨"t", "u", "s", "w", "", 0⟩],
      fun _ => .failed, false, .error .aborted⟩ .aborted rfl

theorem fetchLoop_length (item : Nat → ItemOut) (i : Nat) (l : List SearchResult) :
    (fetchLoop item i l).length = l.length := by
  induction l generalizing i with
  | nil => rfl
  | cons r rs ih =>
    rw [fetchLoop]
    simp only [List.length_cons, ih]

theorem snippetLoop_length (i : Nat) (l : List SearchResult) :
    (snippetLoop i l).length = l.length := by
  induction l generalizing i with
  | nil => rfl
  | cons r rs ih =>
    rw [snippetLoop]
    simp only [List.length_cons, ih]

theorem snippetLoop_content (l : List SearchResult) :
    ∀ (i j : Nat) (r o : SearchResult), l[j]? = some r →
      (snippetLoop i l)[j]? = some o → o.content = r.snippet := by
  induction l with
  | nil => intro i j r o hr; simp at hr
  | cons x xs ih =>
    intro i j r o hr ho
    cases j with
    | zero =>
      rw [snippetLoop] at ho
      simp only [List.getElem?_cons_zero, Option.some.injEq] at hr ho
      rw [← ho, ← hr]
    | succ j =>
      rw [snippetLoop] at ho
      simp only [List.getElem?_cons_succ] at hr ho
      exact ih (i + 1) j r o hr ho

theorem fetchLoop_content (item : Nat → ItemOut) (l : List SearchResult) :
    ∀ (i j : Nat) (r o : SearchResult), l[j]? = some r →
      (fetchLoop item i l)[j]? = some o → item (i + j) = .failed →
      o.content = r.snippet := by
  induction l with
  | nil => intro i j r o hr; simp at hr
  | cons x xs ih =>
    intro i j r o hr ho hfail
    cases j with
    | zero =>
      rw [fetchLoop] at ho
      simp only [List.getElem?_cons_zero, Option.some.injEq] at hr ho
      rw [Nat.add_zero] at hfail
      rw [hfail] at ho
      rw [← ho, ← hr]
    | succ j =>
      rw [fetchLoop] at ho
      simp only [List.getElem?_cons_succ] at hr ho
      have harith : i + (j + 1) = (i + 1) + j := by omega
      rw [harith] at hfail
      exact ih (i + 1) j r o hr ho hfail

/-- C7: `fetchSearchResultsContent` is total — for every result list,
bound, per-item outcome environment and overall-deadline outcome it
returns a list of exactly `min(len(results), maxResults)` items — and
every item whose individual fetch was rejected, as well as every item
when the overall deadline elapsed first, carries its original snippet as
its content. -/
theorem C7_fetch_all_snippet_fallback (results : List SearchResult) (m : Nat)
    (item : Nat → ItemOut) (t : Bool) :
    (fetchSearchResultsContent results m item t).length = min results.length m ∧
    (∀ (j : Nat) (r o : SearchResult), (results.take m)[j]? = some r →
      (fetchSearchResultsContent results m item t)[j]? = some o →
      (t = true ∨ item j = .failed) → o.content = r.snippet) := by
  constructor
  · rw [fetchSearchResultsContent]
    cases t with
    | true =>
      simp only [if_true]
      rw [snippetLoop_length, List.length_take, Nat.min_comm]
    | false =>
      simp only [Bool.false_eq_true, if_false]
      rw [fetchLoop_length, List.length_take, Nat.min_comm]
  · intro j r o hr ho hcase
    rw [fetchSearchResultsContent] at ho
    rcases hcase with ht | hfail
    · rw [ht] at ho
      simp only [if_true] at ho
      exact snippetLoop_content (results.take m) 0 j r o hr ho
    · cases t with
      | true =>
        simp only [if_true] at ho
        exact snippetLoop_content (results.take m) 0 j r o hr ho
      | false =>
        simp only [Bool.false_eq_true, if_false] at ho
        have hfail0 : item (0 + j) = .failed := by rw [Nat.zero_add]; exact hfail
        exact fetchLoop_content item (results.take m) 0 j r o hr ho hfail0

/-- C7 witness (scenario C): 5 results with `maxResults = 3` yield
exactly 3 items, and the failed first fetch falls back to its snippet. -/
theorem C7_witness :
    (exampleResults.take 3)[0]? = some ⟨"t1", "u1", "s1", "w1", "", 0⟩ ∧
    (fetchSearchResultsContent exampleResults 3 exampleItems false)[0]? =
      some ⟨"t1", "u1", "s1", "w1", "s1", 1⟩ ∧
    (⟨"t1", "u1", "s1", "w1", "s1", 1⟩ : SearchResult).content =
      (⟨"t1", "u1", "s1", "w1", "", 0⟩ : SearchResult).snippet ∧
    (fetchSearchResultsContent exampleResults 3 exampleItems false).length =
      min exampleResults.length 3 :=
  ⟨rfl, rfl,
   (C7_fetch_all_snippet_fallback exampleResults 3 exampleItems false).2 0
     ⟨"t1", "u1", "s1", "w1", "", 0⟩ ⟨"t1", "u1", "s1", "w1", "s1", 1⟩ rfl rfl
     (Or.inr rfl),
   (C7_fetch_all_snippet_fallback exampleResults 3 exampleItems false).1⟩

theorem mapSet_length_le {α : Type} (m : List (String × α)) (k : String) (v : α) :
    (mapSet m k v).length ≤ m.length + 1 := by
  rw [mapSet]
  by_cases h : m.any (fun p => p.1 == k)
  · simp [h]
  · simp [h]

theorem mapDelete_cons_head_length {α : Type} (p : String × α) (rest : List (String × α)) :
    (mapDelete (p :: rest) p.1).length ≤ rest.length := by
  rw [mapDelete, List.filter_cons]
  simp only [beq_self_eq_true, Bool.not_true, Bool.false_eq_true, if_false]
  exact List.length_filter_le _ rest

theorem cacheSet_length {α : Type} (m : List (String × α)) (k : String) (v : α)
    (h : m.length ≤ MAX_CACHE_SIZE) :
    (cacheSet m k v).length ≤ MAX_CACHE_SIZE := by
  rw [cacheSet.eq_def]
  by_cases hfull : MAX_CACHE_SIZE ≤ m.length
  · have hlen : m.length = MAX_CACHE_SIZE := Nat.le_antisymm h hfull
    cases m with
    | nil => simp [MAX_CACHE_SIZE] at hlen
    | cons p rest =>
      simp only [hfull, if_true]
      have h1 : (mapDelete (p :: rest) p.1).length ≤ rest.length :=
        mapDelete_cons_head_length p rest
      have h2 := mapSet_length_le (mapDelete (p :: rest) p.1) k v
      have h3 : rest.length + 1 = MAX_CACHE_SIZE := by
        simpa using hlen
      omega
  · simp only [hfull, if_false]
    have h2 := mapSet_length_le m k v
    omega

/-- C8: folding any sequence of insertions into the empty cache keeps its
size at most `MAX_CACHE_SIZE`, and an insertion of a fresh key into a
cache at capacity evicts exactly the head — the first-inserted surviving
entry of the JS `Map`'s insertion order — rather than an entry chosen by
access recency (the cache read, `cacheLookup`, is read-only in the
source). -/
theorem C8_cache_bound_and_fifo_eviction (α : Type) (inserts : List (String × α))
    (c : List (String × α)) (k : String) (v : α) :
    ((inserts.foldl (fun m p => cacheSet m p.1 p.2) ([] : List (String × α))).length
      ≤ MAX_CACHE_SIZE) ∧
    (c.length = MAX_CACHE_SIZE → (c.map Prod.fst).Nodup →
      (∀ p ∈ c, p.1 ≠ k) → cacheSet c k v = c.tail ++ [(k, v)]) := by
  constructor
  · have key : ∀ (l : List (String × α)) (c0 : List (String × α)),
        c0.length ≤ MAX_CACHE_SIZE →
        (l.foldl (fun m p => cacheSet m p.1 p.2) c0).length ≤ MAX_CACHE_SIZE := by
      intro l
      induction l with
      | nil => intro c0 h0; exact h0
      | cons p l ih =>
        intro c0 h0
        rw [List.foldl_cons]
        exact ih (cacheSet c0 p.1 p.2) (cacheSet_length c0 p.1 p.2 h0)
    exact key inserts [] (by simp [MAX_CACHE_SIZE])
  · intro hlen hnodup hfresh
    cases c with
    | nil => simp [MAX_CACHE_SIZE] at hlen
    | cons p rest =>
      rw [cacheSet.eq_def]
      have hfull : MAX_CACHE_SIZE ≤ (p :: rest).length := hlen.ge
      simp only [hfull, if_true]
      have hdel : mapDelete (p :: rest) p.1 = rest := by
        rw [mapDelete, List.filter_cons]
        simp only [beq_self_eq_true, Bool.not_true, Bool.false_eq_true, if_false]
        apply List.filter_eq_self.mpr
        intro q hq
        simp only [List.map_cons, List.nodup_cons, List.mem_map] at hnodup
        have : q.1 ≠ p.1 := by
          intro he
          exact hnodup.1 ⟨q, hq, he⟩
        simpa using this
      rw [hdel, mapSet]
      have hany : rest.any (fun q => q.1 == k) = false := by
        rw [List.any_eq_false]
        intro q hq
        have := hfresh q (List.mem_cons_of_mem p hq)
        simpa using this
      rw [hany]
      simp

/-- C8 witness: fifty-one distinct insertions stay within the bound, and
the insertion of the fifty-first distinct key into a full cache evicts
exactly the oldest-inserted entry (key "0"). -/
theorem C8_witness :
    (fiftyOneInserts.foldl (fun m p => cacheSet m p.1 p.2)
      ([] : List (String × Nat))).length ≤ MAX_CACHE_SIZE ∧
    cacheSet fullCache "50" 50 = fullCache.tail ++ [("50", 50)] :=
  ⟨(C8_cache_bound_and_fifo_eviction Nat fiftyOneInserts fullCache "50" 50).1,
   (C8_cache_bound_and_fifo_eviction Nat fiftyOneInserts fullCache "50" 50).2
     (by decide) (by decide) (by decide)⟩

theorem find?_append_some {α : Type} (l l2 : List α) (p : α → Bool) (x : α)
    (h : l.find? p = some x) : (l ++ l2).find? p = some x := by
  induction l with
  | nil => simp at h
  | cons y ys ih =>
    cases hp : p y with
    | true =>
      rw [List.find?_cons_of_pos _ hp] at h
      rw [List.cons_append, List.find?_cons_of_pos _ hp]
      exact h
    | false =>
      rw [List.find?_cons_of_neg _ (by simp [hp])] at h
      rw [List.cons_append, List.find?_cons_of_neg _ (by simp [hp])]
      exact ih h

theorem find?_append_none {α : Type} (l l2 : List α) (p : α → Bool)
    (h : l.find? p = none) : (l ++ l2).find? p = l2.find? p := by
  induction l with
  | nil => rfl
  | cons y ys ih =>
    cases hp : p y with
    | true =>
      rw [List.find?_cons_of_pos _ hp] at h
      exact absurd h (by simp)
    | false =>
      rw [List.find?_cons_of_neg _ (by simp [hp])] at h
      rw [List.cons_append, List.find?_cons_of_neg _ (by simp [hp])]
      exact ih h

theorem storeGet_any (db : List SessionRec) (i : String) (e : SessionRec)
    (hex : storeGet db i = some e) : db.any (fun s => s.id == i) = true := by
  rw [storeGet] at hex
  have hmem := List.mem_of_find?_eq_some hex
  have hp := List.find?_some hex
  exact List.any_eq_true.mpr ⟨e, hmem, hp⟩

theorem storePut_length_present (db : List SessionRec) (r : SessionRec)
    (h : db.any (fun s => s.id == r.id) = true) :
    (storePut db r).length = db.length := by
  rw [storePut, h]
  simp

/-- `store.put` makes the record retrievable under its id. -/
theorem storeGet_storePut (db : List SessionRec) (r : SessionRec) :
    storeGet (storePut db r) r.id = some r := by
  rw [storePut]
  by_cases h : db.any (fun s => s.id == r.id) = true
  · rw [h]
    simp only [if_true]
    induction db with
    | nil => simp at h
    | cons x xs ih =>
      rw [List.map_cons]
      by_cases hx : (x.id == r.id) = true
      · rw [if_pos hx, storeGet]
        rw [List.find?_cons_of_pos _ (by simp)]
      · rw [if_neg hx, storeGet]
        rw [List.find?_cons_of_neg _ (by simpa using hx)]
        have hxs : xs.any (fun s => s.id == r.id) = true := by
          rcases List.any_eq_true.mp h with ⟨a, ha, hpa⟩
          rcases List.mem_cons.mp ha with rfl | ha2
          · exact absurd hpa hx
          · exact List.any_eq_true.mpr ⟨a, ha2, hpa⟩
        have hrec := ih hxs
        rw [storeGet] at hrec
        exact hrec
  · rw [Bool.not_eq_true] at h
    rw [h]
    simp only [Bool.false_eq_true, if_false, storeGet]
    rw [find?_append_none db [r] _ (List.find?_eq_none.mpr (by
      intro a ha hpa
      rw [List.any_eq_false] at h
      exact h a ha hpa))]
    rw [List.find?_cons_of_pos _ (by simp)]

theorem insertDesc_length (x : SessionRec) (l : List SessionRec) :
    (insertDesc x l).length = l.length + 1 := by
  induction l with
  | nil => rfl
  | cons y ys ih =>
    rw [insertDesc]
    by_cases h : y.updatedAt ≤ x.updatedAt <;> simp [h, ih]

theorem sortByUpdatedDesc_length (l : List SessionRec) :
    (sortByUpdatedDesc l).length = l.length := by
  rw [sortByUpdatedDesc]
  induction l with
  | nil => rfl
  | cons x xs ih =>
    rw [List.foldr_cons, insertDesc_length, ih]
    rfl

/-- When the provider holds no more sessions than the cap, pruning is the
identity. -/
theorem prune_eq_of_le (db : List SessionRec) (pk : String)
    (h : (db.filter (fun s => s.providerKey == pk)).length ≤
      HISTORY_MAX_SESSIONS_PER_PROVIDER) :
    pruneSessionsForProvider db pk = db := by
  simp only [pruneSessionsForProvider]
  rw [List.drop_eq_nil_of_le (by rw [sortByUpdatedDesc_length]; exact h)]
  simp

/-- C1 (as stated) is false: a second `putSession` with the same id
overwrites the stored title with the incoming session's title (line 1379
of the script stores `session.title` unconditionally, unlike `createdAt`
on line 1377).  Concretely, upserting over a stored record titled "A"
with an incoming title "B" leaves title "B" — while `createdAt` is indeed
preserved, so the rest of the claim is intact. -/
theorem C1_counterexample :
    (storeGet (putSession [⟨"s1", "prov", 10, 10, "A", []⟩]
        ⟨"s1", "prov", 0, 20, "B", []⟩ 99) "s1").map SessionRec.title = some "B" ∧
    ¬ ((storeGet (putSession [⟨"s1", "prov", 10, 10, "A", []⟩]
        ⟨"s1", "prov", 0, 20, "B", []⟩ 99) "s1").map SessionRec.title = some "A") ∧
    (storeGet (putSession [⟨"s1", "prov", 10, 10, "A", []⟩]
        ⟨"s1", "prov", 0, 20, "B", []⟩ 99) "s1").map SessionRec.createdAt = some 10 := by
  refine ⟨?_, ?_, ?_⟩ <;> decide

/-- C1 amended: a second `putSession` with the same id preserves the
originally stored `createdAt` (falling back through the incoming
timestamps only when the stored one is absent) and sets `updatedAt`,
`messages` — and also `title` — to those of the second call.  (The title
only stays stable because the caller, `buildSessionFromConversation`,
recomputes it on every save from the first non-empty user message of the
current conversation.) -/
theorem C1_amended_upsert (db : List SessionRec) (sess : SessionRec) (now : Nat)
    (e : SessionRec) (hpk : ¬ sess.providerKey = "")
    (hex : storeGet db sess.id = some e)
    (hsmall : db.length ≤ HISTORY_MAX_SESSIONS_PER_PROVIDER) :
    storeGet (putSession db sess now) sess.id =
      some { id := sess.id
             providerKey := sess.providerKey
             createdAt := orFalsy e.createdAt
               (orFalsy sess.createdAt (orFalsy sess.updatedAt now))
             updatedAt := orFalsy sess.updatedAt now
             title := sess.title
             messages := sess.messages } := by
  simp only [putSession]
  rw [if_neg hpk, hex]
  have hany : db.any (fun s => s.id == sess.id) = true := storeGet_any db sess.id e hex
  have hplen := storePut_length_present db
    { id := sess.id
      providerKey := sess.providerKey
      createdAt := orFalsy e.createdAt
        (orFalsy sess.createdAt (orFalsy sess.updatedAt now))
      updatedAt := orFalsy sess.updatedAt now
      title := sess.title
      messages := sess.messages } hany
  rw [prune_eq_of_le _ _ (le_trans (List.length_filter_le _ _)
    (by rw [hplen]; exact hsmall))]
  exact storeGet_storePut db _

/-- C1 amended witness: the concrete upsert of the counterexample,
checked against the amended description. -/
theorem C1_amended_witness :
    storeGet (putSession [⟨"s1", "prov", 10, 10, "A", []⟩]
        ⟨"s1", "prov", 0, 20, "B", []⟩ 99) "s1" =
      some ⟨"s1", "prov", 10, 20, "B", []⟩ :=
  C1_amended_upsert [⟨"s1", "prov", 10, 10, "A", []⟩]
    ⟨"s1", "prov", 0, 20, "B", []⟩ 99 ⟨"s1", "prov", 10, 10, "A", []⟩
    (by decide) (by decide) (by decide)

/-- The title `buildSessionFromConversation` derives is stable under
appending further messages once a non-empty user message exists — this is
why the overwritten title coincides with the stored one in the ordinary
append-only flow. -/
theorem sessionTitle_append_stable (h ext : List MsgRec)
    (hs : (sessionTitle h).isSome = true) :
    sessionTitle (h ++ ext) = sessionTitle h := by
  cases hf : h.find? (fun m => m.role == "user" && !(m.content.trim == "")) with
  | none =>
    exfalso
    rw [sessionTitle, hf] at hs
    simp at hs
  | some m =>
    have h2 := find?_append_some h ext
      (fun m => m.role == "user" && !(m.content.trim == "")) m hf
    rw [sessionTitle, sessionTitle, hf, h2]

end UrlbarLLM
